import Mathlib

/-!
Verification of the Tetris game simulation core.

The repository contains two variants of the game in separate source files:
a simpler ruleset (`src/App.tsx`, "Tetris Solo": single next piece, no hold,
flat scoring, pure-random piece supply) and a richer ruleset
(the "AAA" file: 7-piece bag supply with 3-piece preview, hold slot,
tiered scoring, ghost piece, hard drop with distance bonus).

This file shallowly embeds the pure game-logic functions of both variants
over `List (List Nat)` grids with `Int` piece coordinates (JS numbers used as
integers), and proves the specified properties about them.

Translation conventions:
- A JS array of numbers is a `List Nat` (cell values are 0 or a 1-based
  color index, never negative); grid/shape indices reached by iteration are
  `Nat`, piece coordinates are `Int`.
- `arr[i]` reads are `List.getD` with default 0 / `[]` (a JS out-of-range
  read yields `undefined`, which is falsy in every context in which the
  sources read cells).
- `arr[i] = v` writes are `List.set` (a JS write at a negative index is a
  non-index property write and a write past the end only pads the row,
  neither of which changes any in-range cell; `List.set` is a no-op there).
- `.some((row, dy) => ...)` / `.forEach((row, dy) => ...)` indexed
  callbacks are iteration of the index range with `List.range`, reading the
  element back by index.
- `while` loops (the descent loops) are embedded with explicit fuel that is
  proven sufficient to reach the loop's exit condition whenever the loop
  terminates at all.
-/

/-- `const ROWS = 20`. -/
def ROWS : Nat := 20

/-- `const COLS = 10`. -/
def COLS : Nat := 10

/-- A board or shape matrix: rows of cell values, 0 = empty. -/
abbrev Grid := List (List Nat)

/-- `type Piece = { shape: number[][]; x: number; y: number; colorIdx: number }`. -/
structure Piece where
  shape : Grid
  x : Int
  y : Int
  colorIdx : Nat
deriving DecidableEq, Repr

/-- The `SHAPES` table (O, I, T, S, Z, L, J), identical in all source files. -/
def SHAPES : List Grid :=
  [ [[1,1],[1,1]],
    [[1,1,1,1]],
    [[0,1,0],[1,1,1]],
    [[0,1,1],[1,1,0]],
    [[1,1,0],[0,1,1]],
    [[1,0,0],[1,1,1]],
    [[0,0,1],[1,1,1]] ]

/-- `emptyGrid()`: `Array.from({length: ROWS}, () => Array(COLS).fill(0))`. -/
def emptyGrid : Grid := List.replicate ROWS (List.replicate COLS 0)

/-- Read cell `g[i][j]` with `Nat` indices (out of range reads as 0/falsy). -/
def cellN (g : Grid) (i j : Nat) : Nat := (g.getD i []).getD j 0

/-- Read cell `g[y][x]` with JS-number (`Int`) indices; the sources only
reach this read with `0 ≤ y` (explicitly guarded) and `0 ≤ x < COLS`
(checked just before), so the out-of-range default 0 is never load-bearing. -/
def cellAt (g : Grid) (y x : Int) : Nat :=
  if 0 ≤ y ∧ 0 ≤ x then cellN g y.toNat x.toNat else 0

/-- Write cell `g[i][j] = v` with `Nat` indices (`List.set` is a no-op out of
range, matching that a JS out-of-range write changes no in-range cell). -/
def setCellN (g : Grid) (i j : Nat) (v : Nat) : Grid :=
  g.set i ((g.getD i []).set j v)

/-- Write cell `g[y][x] = v` with JS-number (`Int`) indices. -/
def writeCell (g : Grid) (y x : Int) (v : Nat) : Grid :=
  if 0 ≤ y ∧ 0 ≤ x then setCellN g y.toNat x.toNat v else g

/-- Piece construction shared by `randomPiece` / `PieceBag.next`:
`{ shape, x: Math.floor((COLS - shape[0].length) / 2), y: 0, colorIdx }`. -/
def mkPiece (colorIdx : Nat) : Piece :=
  let shape := SHAPES.getD colorIdx []
  { shape := shape
    x := ((COLS : Int) - ((shape.headD []).length : Int)) / 2
    y := 0
    colorIdx := colorIdx }

/-- `{...p, y: p.y + 1}`: the one-row-lower copy of a piece. -/
def stepDown (p : Piece) : Piece := { p with y := p.y + 1 }

namespace Simple

/-- `collides` of the simpler ruleset (`src/App.tsx`):
`p.shape.some((row,dy)=>row.some((v,dx)=>v && (p.y+dy>=ROWS || p.x+dx<0 ||
p.x+dx>=COLS || (p.y+dy>=0 && g[p.y+dy][p.x+dx]))))`. -/
def collides (g : Grid) (p : Piece) : Bool :=
  (List.range p.shape.length).any fun dy =>
    (List.range (p.shape.getD dy []).length).any fun dx =>
      decide (cellN p.shape dy dx ≠ 0) &&
        (decide (p.y + (dy : Int) ≥ (ROWS : Int)) ||
         decide (p.x + (dx : Int) < 0) ||
         decide (p.x + (dx : Int) ≥ (COLS : Int)) ||
         (decide (p.y + (dy : Int) ≥ 0) &&
          decide (cellAt g (p.y + (dy : Int)) (p.x + (dx : Int)) ≠ 0)))

/-- `rotate` of the simpler ruleset:
`m[0].map((_, i) => m.map(r => r[i]).reverse())`. -/
def rotate (m : Grid) : Grid :=
  (List.range (m.headD []).length).map fun i =>
    (m.map fun r => r.getD i 0).reverse

end Simple

namespace Rich

/-- `collides` of the richer ruleset: per occupied cell,
`if (!cell) return false;` then
`newX < 0 || newX >= COLS || newY >= ROWS || (newY >= 0 && grid[newY][newX])`. -/
def collides (g : Grid) (p : Piece) : Bool :=
  (List.range p.shape.length).any fun dy =>
    (List.range (p.shape.getD dy []).length).any fun dx =>
      if cellN p.shape dy dx = 0 then false
      else
        decide (p.x + (dx : Int) < 0) ||
        decide (p.x + (dx : Int) ≥ (COLS : Int)) ||
        decide (p.y + (dy : Int) ≥ (ROWS : Int)) ||
        (decide (p.y + (dy : Int) ≥ 0) &&
         decide (cellAt g (p.y + (dy : Int)) (p.x + (dx : Int)) ≠ 0))

/-- `rotate` of the richer ruleset: a zero-filled `cols × rows` matrix, then
`for i in [0,rows) for j in [0,cols): rotated[j][rows-1-i] = shape[i][j]`. -/
def rotate (shape : Grid) : Grid :=
  let rows := shape.length
  let cols := (shape.headD []).length
  (List.range rows).foldl
    (fun acc i =>
      (List.range cols).foldl
        (fun acc2 j => setCellN acc2 j (rows - 1 - i) (cellN shape i j)) acc)
    (List.replicate cols (List.replicate rows 0))

end Rich

/-- `merge` (simpler ruleset) / the merge loop of `lockPiece` (richer
ruleset), which are the same code: copy the grid, then for each occupied
shape cell with `p.y+dy >= 0` write `p.colorIdx + 1` at `(p.y+dy, p.x+dx)`. -/
def merge (g : Grid) (p : Piece) : Grid :=
  (List.range p.shape.length).foldl
    (fun ng dy =>
      (List.range (p.shape.getD dy []).length).foldl
        (fun ng2 dx =>
          if cellN p.shape dy dx ≠ 0 ∧ 0 ≤ p.y + (dy : Int) then
            writeCell ng2 (p.y + (dy : Int)) (p.x + (dx : Int)) (p.colorIdx + 1)
          else ng2)
        ng)
    g

/-- `clearLines`, identical in both rulesets: keep rows that still have an
empty cell, count the removed ones, pad empty rows back on top. -/
def clearLines (g : Grid) : Grid × Nat :=
  let kept := g.filter fun r => r.any fun c => c == 0
  let cleared := ROWS - kept.length
  (List.replicate cleared (List.replicate COLS 0) ++ kept, cleared)

/-- `calculateScore(lines, level)` of the richer ruleset. -/
def calculateScore (lines level : Nat) : Nat :=
  let baseScore :=
    if lines = 1 then 100
    else if lines = 2 then 300
    else if lines = 3 then 500
    else if lines = 4 then 800
    else 0
  baseScore * (level + 1)

/-! ### The specification predicate for collision -/

/-- An occupied cell of a shape matrix at relative position `(dy, dx)`. -/
def occupiedCell (shape : Grid) (dy dx : Nat) : Prop :=
  dy < shape.length ∧ dx < (shape.getD dy []).length ∧ cellN shape dy dx ≠ 0

instance (shape : Grid) (dy dx : Nat) : Decidable (occupiedCell shape dy dx) := by
  unfold occupiedCell; infer_instance

/-- The collision condition as the specification states it: some occupied
cell of the piece, translated to board coordinates, is out of horizontal
bounds, at or past the bottom, or (only when its board row is ≥ 0) lands on
a non-empty board cell. -/
def collidesSpec (g : Grid) (p : Piece) : Prop :=
  ∃ dy dx, occupiedCell p.shape dy dx ∧
    (p.x + (dx : Int) < 0 ∨ p.x + (dx : Int) ≥ (COLS : Int) ∨
     p.y + (dy : Int) ≥ (ROWS : Int) ∨
     (0 ≤ p.y + (dy : Int) ∧ cellAt g (p.y + (dy : Int)) (p.x + (dx : Int)) ≠ 0))

theorem simpleCollides_iff (g : Grid) (p : Piece) :
    Simple.collides g p = true ↔ collidesSpec g p := by
  unfold Simple.collides collidesSpec occupiedCell
  simp only [List.any_eq_true, List.mem_range, Bool.and_eq_true, Bool.or_eq_true,
    decide_eq_true_eq]
  constructor
  · rintro ⟨dy, hdy, dx, hdx, hv, hcase⟩
    exact ⟨dy, dx, ⟨hdy, hdx, hv⟩, by tauto⟩
  · rintro ⟨dy, dx, ⟨hdy, hdx, hv⟩, hcase⟩
    exact ⟨dy, hdy, dx, hdx, hv, by tauto⟩

theorem richCollides_iff (g : Grid) (p : Piece) :
    Rich.collides g p = true ↔ collidesSpec g p := by
  unfold Rich.collides collidesSpec occupiedCell
  simp only [List.any_eq_true, List.mem_range]
  constructor
  · rintro ⟨dy, hdy, dx, hdx, h⟩
    by_cases hv : cellN p.shape dy dx = 0
    · rw [if_pos hv] at h
      exact absurd h (by simp)
    · rw [if_neg hv] at h
      simp only [Bool.or_eq_true, Bool.and_eq_true, decide_eq_true_eq] at h
      exact ⟨dy, dx, ⟨hdy, hdx, hv⟩, by tauto⟩
  · rintro ⟨dy, dx, ⟨hdy, hdx, hv⟩, h⟩
    refine ⟨dy, hdy, dx, hdx, ?_⟩
    rw [if_neg hv]
    simp only [Bool.or_eq_true, Bool.and_eq_true, decide_eq_true_eq]
    tauto

theorem Simple.collides_eq_rich (g : Grid) (p : Piece) :
    Simple.collides g p = Rich.collides g p := by
  rcases h : Rich.collides g p with _ | _
  · rcases h2 : Simple.collides g p with _ | _
    · rfl
    · exact absurd ((richCollides_iff g p).mpr ((simpleCollides_iff g p).mp h2)) (by simp [h])
  · exact (simpleCollides_iff g p).mpr ((richCollides_iff g p).mp h)

/-- C1: For every board and piece, `collides` (in both implementations)
returns true iff some occupied cell of the piece's shape, translated by
`(x, y)`, has column outside `[0, COLS)`, or row `≥ ROWS`, or has row `≥ 0`
and lands on a non-empty board cell; an occupied cell with negative board
row is never tested against board content (the occupancy disjunct of
`collidesSpec` requires `0 ≤ y + dy`), only the column bounds and the
bottom bound apply to it. -/
theorem collides_characterization (g : Grid) (p : Piece) :
    (Simple.collides g p = true ↔ collidesSpec g p) ∧
    (Rich.collides g p = true ↔ collidesSpec g p) :=
  ⟨simpleCollides_iff g p, richCollides_iff g p⟩

/-! ### Generic machinery for sequences of single-cell writes -/

theorem getD_set {α : Type} (l : List α) (i a : Nat) (x : α) (d : α) :
    (l.set i x).getD a d = if i = a ∧ i < l.length then x else l.getD a d := by
  rw [List.getD_eq_getElem?_getD, List.getD_eq_getElem?_getD, List.getElem?_set]
  by_cases h1 : i = a
  · subst h1
    by_cases h2 : i < l.length
    · simp [h2]
    · simp only [h2, and_false, if_false, if_true]
      rw [List.getElem?_eq_none (by omega)]
  · simp [h1]

theorem length_setCellN (g : Grid) (i j v : Nat) :
    (setCellN g i j v).length = g.length := by
  unfold setCellN; exact List.length_set ..

theorem rowLen_setCellN (g : Grid) (i j v a : Nat) :
    ((setCellN g i j v).getD a []).length = (g.getD a []).length := by
  unfold setCellN
  rw [getD_set]
  by_cases h : i = a ∧ i < g.length
  · rw [if_pos h, List.length_set, h.1]
  · rw [if_neg h]

theorem cellN_setCellN (g : Grid) (i j v a b : Nat) :
    cellN (setCellN g i j v) a b =
      if i = a ∧ j = b ∧ a < g.length ∧ b < (g.getD a []).length then v
      else cellN g a b := by
  unfold cellN setCellN
  rw [getD_set]
  by_cases h1 : i = a ∧ i < g.length
  · rw [if_pos h1, getD_set]
    obtain ⟨rfl, hlt⟩ := h1
    by_cases h2 : j = b ∧ j < (g.getD i []).length
    · rw [if_pos h2, if_pos ⟨rfl, h2.1, hlt, h2.1 ▸ h2.2⟩]
    · rw [if_neg h2, if_neg (by intro h; exact h2 ⟨h.2.1, h.2.1 ▸ h.2.2.2⟩)]
  · rw [if_neg h1, if_neg (by intro h; exact h1 ⟨h.1, h.1 ▸ h.2.2.1⟩)]

theorem length_writeCell (g : Grid) (y x : Int) (v : Nat) :
    (writeCell g y x v).length = g.length := by
  unfold writeCell
  split
  · exact length_setCellN ..
  · rfl

theorem rowLen_writeCell (g : Grid) (y x : Int) (v : Nat) (a : Nat) :
    ((writeCell g y x v).getD a []).length = (g.getD a []).length := by
  unfold writeCell
  split
  · exact rowLen_setCellN ..
  · rfl

theorem cellN_writeCell (g : Grid) (y x : Int) (v : Nat) (a b : Nat) :
    cellN (writeCell g y x v) a b =
      if y = (a : Int) ∧ x = (b : Int) ∧ a < g.length ∧ b < (g.getD a []).length then v
      else cellN g a b := by
  unfold writeCell
  by_cases hpos : 0 ≤ y ∧ 0 ≤ x
  · rw [if_pos hpos, cellN_setCellN]
    by_cases h : y.toNat = a ∧ x.toNat = b ∧ a < g.length ∧ b < (g.getD a []).length
    · rw [if_pos h, if_pos (by obtain ⟨h1, h2, h3⟩ := h; refine ⟨by omega, by omega, h3⟩)]
    · rw [if_neg h, if_neg (by intro hc; exact h ⟨by omega, by omega, hc.2.2⟩)]
  · rw [if_neg hpos, if_neg (by intro hc; exact hpos ⟨by omega, by omega⟩)]

/-- A single guarded cell write: when `act` is set, write `val` at
`(row, col)`; otherwise leave the grid alone. -/
structure CellOp where
  act : Bool
  row : Int
  col : Int
  val : Nat
deriving DecidableEq, Repr

def applyOp (g : Grid) (op : CellOp) : Grid :=
  if op.act then writeCell g op.row op.col op.val else g

def applyOps (g : Grid) (ops : List CellOp) : Grid := ops.foldl applyOp g

theorem length_applyOp (g : Grid) (op : CellOp) : (applyOp g op).length = g.length := by
  unfold applyOp
  split
  · exact length_writeCell ..
  · rfl

theorem rowLen_applyOp (g : Grid) (op : CellOp) (a : Nat) :
    ((applyOp g op).getD a []).length = (g.getD a []).length := by
  unfold applyOp
  split
  · exact rowLen_writeCell ..
  · rfl

theorem length_applyOps (ops : List CellOp) (g : Grid) :
    (applyOps g ops).length = g.length := by
  induction ops generalizing g with
  | nil => rfl
  | cons op rest ih => rw [applyOps, List.foldl_cons, ← applyOps, ih, length_applyOp]

theorem rowLen_applyOps (ops : List CellOp) (g : Grid) (a : Nat) :
    ((applyOps g ops).getD a []).length = (g.getD a []).length := by
  induction ops generalizing g with
  | nil => rfl
  | cons op rest ih => rw [applyOps, List.foldl_cons, ← applyOps, ih, rowLen_applyOp]

theorem cellN_applyOps_not_hit (ops : List CellOp) (g : Grid) (a b : Nat)
    (h : ∀ op ∈ ops, op.act = true → ¬(op.row = (a : Int) ∧ op.col = (b : Int))) :
    cellN (applyOps g ops) a b = cellN g a b := by
  induction ops generalizing g with
  | nil => rfl
  | cons op rest ih =>
    rw [applyOps, List.foldl_cons, ← applyOps,
      ih _ (fun o ho => h o (List.mem_cons_of_mem _ ho))]
    unfold applyOp
    by_cases hact : op.act = true
    · rw [if_pos hact, cellN_writeCell,
        if_neg (fun hc => h op (List.mem_cons_self ..) hact ⟨hc.1, hc.2.1⟩)]
    · rw [if_neg hact]

theorem cellN_applyOps_hit (ops : List CellOp) (g : Grid) (a b v : Nat)
    (ha : a < g.length) (hb : b < (g.getD a []).length)
    (hex : ∃ op ∈ ops, op.act = true ∧ op.row = (a : Int) ∧ op.col = (b : Int))
    (huniq : ∀ op ∈ ops, op.act = true → op.row = (a : Int) → op.col = (b : Int) →
      op.val = v) :
    cellN (applyOps g ops) a b = v := by
  induction ops generalizing g with
  | nil => exact absurd hex (by simp)
  | cons op rest ih =>
    rw [applyOps, List.foldl_cons, ← applyOps]
    by_cases hhit : op.act = true ∧ op.row = (a : Int) ∧ op.col = (b : Int)
    · have hg' : cellN (applyOp g op) a b = v := by
        unfold applyOp
        rw [if_pos hhit.1, cellN_writeCell, if_pos ⟨hhit.2.1, hhit.2.2, ha, hb⟩]
        exact huniq op (List.mem_cons_self ..) hhit.1 hhit.2.1 hhit.2.2
      by_cases hex' : ∃ o ∈ rest, o.act = true ∧ o.row = (a : Int) ∧ o.col = (b : Int)
      · exact ih (applyOp g op)
          (by rw [length_applyOp]; exact ha)
          (by rw [rowLen_applyOp]; exact hb)
          hex'
          (fun o ho h1 h2 h3 => huniq o (List.mem_cons_of_mem _ ho) h1 h2 h3)
      · rw [cellN_applyOps_not_hit _ _ _ _
          (fun o ho hact hc => hex' ⟨o, ho, hact, hc.1, hc.2⟩)]
        exact hg'
    · obtain ⟨o, ho, hprop⟩ := hex
      rcases List.mem_cons.mp ho with rfl | ho2
      · exact absurd hprop hhit
      · have hcell : cellN (applyOp g op) a b = cellN g a b := by
          unfold applyOp
          by_cases hact : op.act = true
          · rw [if_pos hact, cellN_writeCell,
              if_neg (fun hc => hhit ⟨hact, hc.1, hc.2.1⟩)]
          · rw [if_neg hact]
        exact ih (applyOp g op)
          (by rw [length_applyOp]; exact ha)
          (by rw [rowLen_applyOp]; exact hb)
          ⟨o, ho2, hprop⟩
          (fun o2 ho3 h1 h2 h3 => huniq o2 (List.mem_cons_of_mem _ ho3) h1 h2 h3)

theorem foldlCongr {α β : Type} (l : List β) (f1 f2 : α → β → α) (init : α)
    (h : ∀ acc x, f1 acc x = f2 acc x) : l.foldl f1 init = l.foldl f2 init := by
  induction l generalizing init with
  | nil => rfl
  | cons x xs ih => rw [List.foldl_cons, List.foldl_cons, h, ih]

theorem foldl_flatMap {α β γ : Type} (l : List γ) (h : γ → List β)
    (f : α → β → α) (init : α) :
    (l.flatMap h).foldl f init = l.foldl (fun acc x => (h x).foldl f acc) init := by
  induction l generalizing init with
  | nil => rfl
  | cons x xs ih => rw [List.flatMap_cons, List.foldl_append, List.foldl_cons, ih]

theorem getD_mem (g : Grid) (a : Nat) (h : a < g.length) : g.getD a [] ∈ g := by
  rw [List.getD_eq_getElem?_getD, List.getElem?_eq_getElem h]
  exact List.getElem_mem h

theorem mem_rows_applyOps (ops : List CellOp) (g : Grid) (r : List Nat)
    (h : r ∈ applyOps g ops) :
    ∃ a, a < g.length ∧ r.length = (g.getD a []).length := by
  obtain ⟨a, ha, rfl⟩ := List.mem_iff_getElem.mp h
  have ha2 : a < g.length := by rw [← length_applyOps ops g]; exact ha
  refine ⟨a, ha2, ?_⟩
  rw [← rowLen_applyOps ops g a, List.getD_eq_getElem?_getD, List.getElem?_eq_getElem ha]
  rfl

/-! ### C2: merge -/

/-- The sequence of guarded cell writes performed by `merge`'s nested loops. -/
def mergeOps (p : Piece) : List CellOp :=
  (List.range p.shape.length).flatMap fun dy =>
    (List.range (p.shape.getD dy []).length).map fun dx =>
      { act := decide (cellN p.shape dy dx ≠ 0 ∧ 0 ≤ p.y + (dy : Int))
        row := p.y + (dy : Int)
        col := p.x + (dx : Int)
        val := p.colorIdx + 1 }

theorem merge_eq_applyOps (g : Grid) (p : Piece) :
    merge g p = applyOps g (mergeOps p) := by
  unfold merge mergeOps applyOps
  rw [foldl_flatMap]
  refine foldlCongr _ _ _ _ (fun acc dy => ?_)
  rw [List.foldl_map]
  refine foldlCongr _ _ _ _ (fun acc2 dx => ?_)
  unfold applyOp
  simp only [decide_eq_true_eq]

theorem mem_mergeOps (p : Piece) (op : CellOp) :
    op ∈ mergeOps p ↔
      ∃ dy, dy < p.shape.length ∧ ∃ dx, dx < (p.shape.getD dy []).length ∧
        op = { act := decide (cellN p.shape dy dx ≠ 0 ∧ 0 ≤ p.y + (dy : Int)),
               row := p.y + (dy : Int), col := p.x + (dx : Int),
               val := p.colorIdx + 1 } := by
  unfold mergeOps
  simp only [List.mem_flatMap, List.mem_map, List.mem_range]
  constructor
  · rintro ⟨dy, hdy, dx, hdx, rfl⟩
    exact ⟨dy, hdy, dx, hdx, rfl⟩
  · rintro ⟨dy, hdy, dx, hdx, rfl⟩
    exact ⟨dy, hdy, dx, hdx, rfl⟩

/-- The cells of the board a piece covers: occupied shape cells translated
by `(x, y)`, restricted to non-negative board rows (a `Nat` row index `i`
can only be hit by a translated cell with board row `≥ 0`). -/
def coveredBy (p : Piece) (i j : Nat) : Prop :=
  ∃ dy dx, occupiedCell p.shape dy dx ∧
    p.y + (dy : Int) = (i : Int) ∧ p.x + (dx : Int) = (j : Int)

instance (p : Piece) (i j : Nat) : Decidable (coveredBy p i j) := by
  unfold coveredBy
  refine decidable_of_iff
    (∃ dy < p.shape.length, ∃ dx < (p.shape.getD dy []).length,
      occupiedCell p.shape dy dx ∧
      p.y + (dy : Int) = (i : Int) ∧ p.x + (dx : Int) = (j : Int)) ?_
  constructor
  · rintro ⟨dy, _, dx, _, h⟩
    exact ⟨dy, dx, h⟩
  · rintro ⟨dy, dx, h⟩
    exact ⟨dy, h.1.1, dx, h.1.2.1, h⟩

/-- C2: `merge` returns a board that agrees with `B` on every in-range cell
not covered by an occupied piece cell, and holds `colorIdx + 1` at every
in-range cell that is covered (only board rows `≥ 0` can be covered, so
occupied cells with negative board row are written nowhere); the result
keeps the board's dimensions, and the input board is untouched (`merge` is
a pure function of its arguments). -/
theorem merge_writes_occupied_cells (g : Grid) (p : Piece)
    (hg : g.length = ROWS) (hr : ∀ r ∈ g, r.length = COLS) :
    (merge g p).length = ROWS ∧
    (∀ r ∈ merge g p, r.length = COLS) ∧
    ∀ i, i < ROWS → ∀ j, j < COLS →
      (coveredBy p i j → cellN (merge g p) i j = p.colorIdx + 1) ∧
      (¬coveredBy p i j → cellN (merge g p) i j = cellN g i j) := by
  have hrow : ∀ a, a < g.length → (g.getD a []).length = COLS :=
    fun a ha => hr _ (getD_mem g a ha)
  refine ⟨?_, ?_, ?_⟩
  · rw [merge_eq_applyOps, length_applyOps, hg]
  · intro r hrmem
    rw [merge_eq_applyOps] at hrmem
    obtain ⟨a, ha, hlen⟩ := mem_rows_applyOps _ _ _ hrmem
    rw [hlen, hrow a ha]
  · intro i hi j hj
    have hi' : i < g.length := by rw [hg]; exact hi
    have hj' : j < (g.getD i []).length := by rw [hrow i hi']; exact hj
    constructor
    · rintro ⟨dy, dx, hocc, hrowq, hcol⟩
      rw [merge_eq_applyOps]
      refine cellN_applyOps_hit _ _ _ _ _ hi' hj' ?_ ?_
      · refine ⟨{ act := decide (cellN p.shape dy dx ≠ 0 ∧ 0 ≤ p.y + (dy : Int)),
                  row := p.y + (dy : Int), col := p.x + (dx : Int),
                  val := p.colorIdx + 1 }, ?_, ?_, hrowq, hcol⟩
        · exact (mem_mergeOps p _).mpr ⟨dy, hocc.1, dx, hocc.2.1, rfl⟩
        · simp only [decide_eq_true_eq]
          exact ⟨hocc.2.2, by rw [hrowq]; exact Int.natCast_nonneg i⟩
      · intro op hop _ _ _
        obtain ⟨dy2, _, dx2, _, rfl⟩ := (mem_mergeOps p op).mp hop
        rfl
    · intro hnc
      rw [merge_eq_applyOps]
      refine cellN_applyOps_not_hit _ _ _ _ ?_
      rintro op hop hact ⟨h1, h2⟩
      obtain ⟨dy, hdy, dx, hdx, rfl⟩ := (mem_mergeOps p op).mp hop
      simp only [decide_eq_true_eq] at hact
      exact hnc ⟨dy, dx, ⟨hdy, hdx, hact.1⟩, h1, h2⟩

/-- Witness for C2 on a concrete input: merging the O piece at its spawn
position into the empty board writes `colorIdx + 1 = 1` at board cell
`(0, 4)`. -/
theorem merge_writes_occupied_cells_witness :
    cellN (merge emptyGrid (mkPiece 0)) 0 4 = (mkPiece 0).colorIdx + 1 :=
  ((merge_writes_occupied_cells emptyGrid (mkPiece 0) (by decide)
      (by decide)).2.2 0 (by decide) 4 (by decide)).1
    ⟨0, 0, by decide, by decide, by decide⟩

/-! ### C3: clearLines -/

theorem countP_not_add (l : Grid) (p : List Nat → Bool) :
    l.countP p + l.countP (fun r => !(p r)) = l.length := by
  induction l with
  | nil => rfl
  | cons r t ih =>
    rcases h : p r with _ | _ <;> simp [List.countP_cons, h] <;> omega

/-- A row is kept by `clearLines` iff it still has an empty cell. -/
def hasEmptyCell (r : List Nat) : Bool := r.any fun c => c == 0

theorem clearLines_eq (g : Grid) :
    clearLines g =
      (List.replicate (ROWS - (g.filter hasEmptyCell).length) (List.replicate COLS 0) ++
        g.filter hasEmptyCell,
       ROWS - (g.filter hasEmptyCell).length) := rfl

/-- C3: on a `ROWS × COLS` board, `clearLines` removes exactly the rows with
no empty cell, keeps the remaining rows in order (they form the suffix of
the result, as a `filter` of the input), reinserts that many empty rows at
the top so the result again has `ROWS` rows, and reports the number of full
rows; with no full row it returns the board unchanged with count 0. -/
theorem clearLines_removes_full_rows (g : Grid)
    (hg : g.length = ROWS) (hr : ∀ r ∈ g, r.length = COLS) :
    ((clearLines g).1).length = ROWS ∧
    (clearLines g).2 = g.countP (fun r => !(hasEmptyCell r)) ∧
    (clearLines g).1 =
      List.replicate ((clearLines g).2) (List.replicate COLS 0) ++
        g.filter hasEmptyCell ∧
    ((∀ r ∈ g, hasEmptyCell r = true) → clearLines g = (g, 0)) := by
  have hfil : (g.filter hasEmptyCell).length = g.countP hasEmptyCell :=
    (List.countP_eq_length_filter ..).symm
  have hsum := countP_not_add g hasEmptyCell
  refine ⟨?_, ?_, ?_, ?_⟩
  · rw [clearLines_eq]
    simp only [List.length_append, List.length_replicate]
    omega
  · rw [clearLines_eq]
    simp only
    omega
  · rw [clearLines_eq]
  · intro hall
    have hself : g.filter hasEmptyCell = g := List.filter_eq_self.mpr hall
    rw [clearLines_eq, hself, hg]
    simp

/-- Witness for C3 on a concrete input: the empty board has no full row, so
`clearLines` returns it unchanged with a zero count. -/
theorem clearLines_removes_full_rows_witness :
    clearLines emptyGrid = (emptyGrid, 0) :=
  (clearLines_removes_full_rows emptyGrid (by decide) (by decide)).2.2.2 (by decide)

/-! ### C4: rotate (both implementations) -/

theorem getD_replicate_lt {α : Type} (n a : Nat) (x d : α) (h : a < n) :
    (List.replicate n x).getD a d = x := by
  rw [List.getD_eq_getElem?_getD, List.getElem?_replicate, if_pos h]
  rfl

/-- The sequence of cell writes performed by the richer ruleset's `rotate`. -/
def rotateOps (shape : Grid) : List CellOp :=
  (List.range shape.length).flatMap fun (i : Nat) =>
    (List.range (shape.headD []).length).map fun (j : Nat) =>
      { act := true, row := (j : Int), col := ((shape.length - 1 - i : Nat) : Int),
        val := cellN shape i j }

theorem rotate_eq_applyOps (shape : Grid) :
    Rich.rotate shape =
      applyOps
        (List.replicate (shape.headD []).length (List.replicate shape.length 0))
        (rotateOps shape) := by
  unfold Rich.rotate rotateOps applyOps
  rw [foldl_flatMap]
  refine foldlCongr _ _ _ _ (fun acc i => ?_)
  rw [List.foldl_map]
  refine foldlCongr _ _ _ _ (fun acc2 j => ?_)
  simp only [applyOp, writeCell, if_true]
  rw [if_pos ⟨Int.natCast_nonneg j, Int.natCast_nonneg _⟩, Int.toNat_natCast,
    Int.toNat_natCast]

theorem mem_rotateOps (shape : Grid) (op : CellOp) :
    op ∈ rotateOps shape ↔
      ∃ i, i < shape.length ∧ ∃ j, j < (shape.headD []).length ∧
        op = { act := true, row := (j : Int),
               col := ((shape.length - 1 - i : Nat) : Int),
               val := cellN shape i j } := by
  unfold rotateOps
  simp only [List.mem_flatMap, List.mem_map, List.mem_range]
  constructor
  · rintro ⟨i, hi, j, hj, rfl⟩
    exact ⟨i, hi, j, hj, rfl⟩
  · rintro ⟨i, hi, j, hj, rfl⟩
    exact ⟨i, hi, j, hj, rfl⟩

theorem richRotate_cell (shape : Grid) (i j : Nat)
    (hi : i < shape.length) (hj : j < (shape.headD []).length) :
    cellN (Rich.rotate shape) j (shape.length - 1 - i) = cellN shape i j := by
  rw [rotate_eq_applyOps]
  refine cellN_applyOps_hit _ _ _ _ _ ?_ ?_ ?_ ?_
  · simpa using hj
  · rw [getD_replicate_lt _ _ _ _ (by simpa using hj)]
    simp only [List.length_replicate]
    omega
  · exact ⟨⟨true, (j : Int), ((shape.length - 1 - i : Nat) : Int), cellN shape i j⟩,
      (mem_rotateOps shape _).mpr ⟨i, hi, j, hj, rfl⟩, rfl, rfl, rfl⟩
  · intro op hop _ hrow hcol
    obtain ⟨i2, hi2, j2, hj2, rfl⟩ := (mem_rotateOps shape op).mp hop
    simp only [Nat.cast_inj] at hrow hcol
    have : i2 = i := by omega
    rw [this, hrow]

theorem richRotate_length (shape : Grid) :
    (Rich.rotate shape).length = (shape.headD []).length := by
  rw [rotate_eq_applyOps, length_applyOps, List.length_replicate]

theorem richRotate_row_length (shape : Grid) (r : List Nat)
    (h : r ∈ Rich.rotate shape) : r.length = shape.length := by
  rw [rotate_eq_applyOps] at h
  obtain ⟨a, ha, hlen⟩ := mem_rows_applyOps _ _ _ h
  rw [List.length_replicate] at ha
  rw [hlen, getD_replicate_lt _ _ _ _ ha, List.length_replicate]

theorem simpleRotate_length (m : Grid) :
    (Simple.rotate m).length = (m.headD []).length := by
  rw [Simple.rotate, List.length_map, List.length_range]

theorem simpleRotate_row_length (m : Grid) (r : List Nat)
    (h : r ∈ Simple.rotate m) : r.length = m.length := by
  rw [Simple.rotate] at h
  obtain ⟨i, _, rfl⟩ := List.mem_map.mp h
  rw [List.length_reverse, List.length_map]

theorem simpleRotate_cell (m : Grid) (i j : Nat)
    (hi : i < m.length) (hj : j < (m.headD []).length) :
    cellN (Simple.rotate m) j (m.length - 1 - i) = cellN m i j := by
  unfold Simple.rotate cellN
  have hjlen : j < (List.range (m.headD []).length).length := by
    rw [List.length_range]; exact hj
  have hmap : ((List.range (m.headD []).length).map fun i =>
      (m.map fun r => r.getD i 0).reverse).getD j [] =
      (m.map fun r => r.getD j 0).reverse := by
    rw [List.getD_eq_getElem?_getD,
      List.getElem?_eq_getElem (by rw [List.length_map]; exact hjlen)]
    simp only [Option.getD_some, List.getElem_map, List.getElem_range]
  rw [hmap]
  have hlen : ((m.map fun r => r.getD j 0).reverse).length = m.length := by
    rw [List.length_reverse, List.length_map]
  have hidx : m.length - 1 - i < ((m.map fun r => r.getD j 0).reverse).length := by
    rw [hlen]; omega
  have hm : m.getD i [] = m[i] := by
    rw [List.getD_eq_getElem?_getD, List.getElem?_eq_getElem hi]
    rfl
  rw [List.getD_eq_getElem?_getD, List.getElem?_eq_getElem hidx, Option.getD_some,
    List.getElem_reverse]
  have heq : (m.map fun r => r.getD j 0).length - 1 - (m.length - 1 - i) = i := by
    rw [List.length_map]; omega
  simp only [heq, List.getElem_map]
  rw [hm]

/-- C4: for every non-empty rectangular `R × C` 0/1 matrix, both `rotate`
implementations return a `C × R` matrix satisfying
`rotated[j][R-1-i] = shape[i][j]` for all `i < R`, `j < C`
(a 90° clockwise rotation with transposed dimensions). -/
theorem rotate_clockwise_both (m : Grid) (R C : Nat)
    (hR : m.length = R) (hC : ∀ r ∈ m, r.length = C) (hne : 0 < R)
    (h01 : ∀ r ∈ m, ∀ v ∈ r, v = 0 ∨ v = 1) :
    (Simple.rotate m).length = C ∧ (∀ r ∈ Simple.rotate m, r.length = R) ∧
    (Rich.rotate m).length = C ∧ (∀ r ∈ Rich.rotate m, r.length = R) ∧
    ∀ i, i < R → ∀ j, j < C →
      cellN (Simple.rotate m) j (R - 1 - i) = cellN m i j ∧
      cellN (Rich.rotate m) j (R - 1 - i) = cellN m i j := by
  subst hR
  have hhead : (m.headD []).length = C := by
    cases m with
    | nil => simp at hne
    | cons r t => exact hC r (List.mem_cons_self ..)
  refine ⟨?_, ?_, ?_, ?_, ?_⟩
  · rw [simpleRotate_length, hhead]
  · exact fun r hrm => simpleRotate_row_length m r hrm
  · rw [richRotate_length, hhead]
  · exact fun r hrm => richRotate_row_length m r hrm
  · intro i hi j hj
    exact ⟨simpleRotate_cell m i j hi (by rw [hhead]; exact hj),
           richRotate_cell m i j hi (by rw [hhead]; exact hj)⟩

/-- Witness for C4 on a concrete input: rotating the 2×3 T shape gives a
3×2 matrix whose cell `(0, 1)` is the T's cell `(0, 0)`. -/
theorem rotate_clockwise_both_witness :
    (Simple.rotate [[0,1,0],[1,1,1]]).length = 3 ∧
    cellN (Rich.rotate [[0,1,0],[1,1,1]]) 0 1 = cellN [[0,1,0],[1,1,1]] 0 0 :=
  ⟨(rotate_clockwise_both [[0,1,0],[1,1,1]] 2 3 rfl (by decide) (by decide)
      (by decide)).1,
   ((rotate_clockwise_both [[0,1,0],[1,1,1]] 2 3 rfl (by decide) (by decide)
      (by decide)).2.2.2.2 0 (by decide) 0 (by decide)).2⟩

/-! ### C7: tiered scoring table -/

/-- C7: under the tiered policy, `calculateScore n level` is the table
value (1→100, 2→300, 3→500, 4→800, otherwise 0) multiplied by `level + 1`;
in particular a quadruple clear at level 0 is worth exactly 800 points. -/
theorem calculateScore_tiered_table :
    (∀ level : Nat, calculateScore 1 level = 100 * (level + 1) ∧
      calculateScore 2 level = 300 * (level + 1) ∧
      calculateScore 3 level = 500 * (level + 1) ∧
      calculateScore 4 level = 800 * (level + 1)) ∧
    (∀ lines level : Nat, lines ≠ 1 → lines ≠ 2 → lines ≠ 3 → lines ≠ 4 →
      calculateScore lines level = 0) ∧
    calculateScore 4 0 = 800 := by
  refine ⟨fun level => ⟨rfl, rfl, rfl, rfl⟩, ?_, rfl⟩
  intro lines level h1 h2 h3 h4
  simp [calculateScore, h1, h2, h3, h4]

/-- Witness for C7 at concrete inputs with `n` outside 1..4. -/
theorem calculateScore_tiered_table_witness :
    calculateScore 0 5 = 0 ∧ calculateScore 7 2 = 0 :=
  ⟨calculateScore_tiered_table.2.1 0 5 (by decide) (by decide) (by decide) (by decide),
   calculateScore_tiered_table.2.1 7 2 (by decide) (by decide) (by decide) (by decide)⟩

/-! ### Descent loops (ghost piece / hard drop) -/

/-- The descent loop body shared by `getGhostPiece`, `hardDrop` and the
simpler ruleset's `ArrowUp` handler:
`while (!collides(grid, {...q, y: q.y + 1})) q.y++`, with explicit fuel.
The fuel passed by `getGhostPiece` is proven large enough to reach the
loop's exit condition whenever the exit condition is satisfiable at all. -/
def descend (g : Grid) (p : Piece) : Nat → Piece
  | 0 => p
  | fuel + 1 => if Rich.collides g (stepDown p) then p else descend g (stepDown p) fuel

/-- The loop exit condition after `k` downward steps from `p`. -/
def stopsAt (g : Grid) (p : Piece) (k : Nat) : Bool :=
  Rich.collides g { p with y := p.y + (k : Int) + 1 }

/-- An upper bound on the number of downward steps the descent loop can
make: past it, every piece cell is at or below row `ROWS`. -/
def ghostFuel (p : Piece) : Nat := ((ROWS : Int) - p.y).toNat + p.shape.length + 1

/-- `getGhostPiece(piece, grid)` of the richer ruleset (the `hardDrop`
loops in both rulesets execute the same descent). -/
def getGhostPiece (p : Piece) (g : Grid) : Piece := descend g p (ghostFuel p)

/-! ### The session state machines -/

/-- Re-centering applied by `holdPieceAction`:
`{...q, x: Math.floor((COLS - q.shape[0].length) / 2), y: 0}`. -/
def recenter (q : Piece) : Piece :=
  { q with x := ((COLS : Int) - ((q.shape.headD []).length : Int)) / 2, y := 0 }

namespace Rich

/-- The session state of the richer ruleset: grid, active piece (nullable),
3-piece preview queue, hold slot, hold-used flag, counters, game-over flag.
The nondeterministic piece supply (`pieceBag.current.next()`) is modelled
as a pre-drawn list of upcoming pieces consumed from the front; the level
recomputation effect (`level = floor(lines / 10)`) runs outside these
transitions. Presentation state (started/paused/countdown) only gates
whether a handler runs at all. -/
structure State where
  grid : Grid
  piece : Option Piece
  nextPieces : List Piece
  holdPiece : Option Piece
  canHold : Bool
  score : Nat
  level : Nat
  lines : Nat
  over : Bool
  supply : List Piece
deriving DecidableEq, Repr

/-- `lockPiece`: merge the active piece into the grid, clear lines, award
the tiered score and line count only when lines were cleared, spawn
`nextPieces[0]`, refill the queue tail from the supply, re-allow hold, and
set game-over when the spawned piece collides with the new grid. -/
def State.lockPiece (s : State) : State :=
  match s.piece with
  | none => s
  | some p =>
    let merged := merge s.grid p
    let newGrid := (clearLines merged).1
    let cleared := (clearLines merged).2
    let newPiece := s.nextPieces.headD (mkPiece 0)
    { s with
      grid := newGrid
      score := if 0 < cleared then s.score + calculateScore cleared s.level else s.score
      lines := if 0 < cleared then s.lines + cleared else s.lines
      nextPieces := s.nextPieces.tail ++ [s.supply.headD (mkPiece 0)]
      supply := s.supply.tail
      piece := some newPiece
      canHold := true
      over := if collides newGrid newPiece then true else s.over }

/-- One gravity tick: attempt the one-row-lower position; lock when it
collides, otherwise move down. -/
def State.tick (s : State) : State :=
  match s.piece with
  | none => s
  | some p =>
    if collides s.grid (stepDown p) then s.lockPiece
    else { s with piece := some (stepDown p) }

/-- The `ArrowDown` (soft-drop) handler: the same attempt as a gravity
tick, locking when the one-row-lower position collides. -/
def State.softDrop (s : State) : State :=
  match s.piece with
  | none => s
  | some p =>
    if collides s.grid (stepDown p) then s.lockPiece
    else { s with piece := some (stepDown p) }

/-- The `ArrowLeft` handler: reject the move when the result collides. -/
def State.moveLeft (s : State) : State :=
  match s.piece with
  | none => s
  | some p =>
    let np := { p with x := p.x - 1 }
    if collides s.grid np then s else { s with piece := some np }

/-- The `ArrowRight` handler: reject the move when the result collides. -/
def State.moveRight (s : State) : State :=
  match s.piece with
  | none => s
  | some p =>
    let np := { p with x := p.x + 1 }
    if collides s.grid np then s else { s with piece := some np }

/-- `rotatePiece`: rotate the shape in place; commit only when the rotated
piece does not collide at the current position. -/
def State.rotatePiece (s : State) : State :=
  match s.piece with
  | none => s
  | some p =>
    let rp := { p with shape := rotate p.shape }
    if collides s.grid rp then s else { s with piece := some rp }

/-- `hardDrop`: run the descent loop (identical to `getGhostPiece`), keep
the dropped piece active (no immediate lock) and award `distance * 2`. -/
def State.hardDrop (s : State) : State :=
  match s.piece with
  | none => s
  | some p =>
    let dropped := getGhostPiece p s.grid
    { s with piece := some dropped, score := s.score + (dropped.y - p.y).toNat * 2 }

/-- `holdPieceAction`: rejected outright when no piece is active or the
hold was already used this turn; otherwise swap with the held piece
(re-centered, `y = 0`) or, with an empty hold slot, stash the active piece
and spawn from the preview queue; either way the hold becomes used. -/
def State.holdPieceAction (s : State) : State :=
  match s.piece with
  | none => s
  | some p =>
    if !s.canHold then s
    else
      match s.holdPiece with
      | some hp =>
        { s with
          piece := some (recenter hp)
          holdPiece := some (recenter p)
          canHold := false }
      | none =>
        { s with
          holdPiece := some (recenter p)
          piece := some (s.nextPieces.headD (mkPiece 0))
          nextPieces := s.nextPieces.tail ++ [s.supply.headD (mkPiece 0)]
          supply := s.supply.tail
          canHold := false }

end Rich

namespace Simple

/-- The session state of the simpler ruleset: grid, active piece, single
next piece, flat score, level accumulator, game-over flag; the pure-random
supply (`randomPiece()`) is modelled as a pre-drawn list consumed from the
front. -/
structure State where
  grid : Grid
  piece : Piece
  nextPiece : Piece
  score : Nat
  level : Nat
  over : Bool
  supply : List Piece
deriving DecidableEq, Repr

/-- One gravity tick of the simpler ruleset: when the one-row-lower
position collides, either end the game (piece still at row 0, merged
nothing) or lock: merge, clear lines, add `10 + cleared * 100` to the
score, add `cleared` to the level, and promote the next piece. -/
def State.tick (s : State) : State :=
  if collides s.grid (stepDown s.piece) then
    if s.piece.y = 0 then { s with over := true }
    else
      let merged := merge s.grid s.piece
      { s with
        grid := (clearLines merged).1
        score := s.score + 10 + (clearLines merged).2 * 100
        level := s.level + (clearLines merged).2
        piece := s.nextPiece
        nextPiece := s.supply.headD (mkPiece 0)
        supply := s.supply.tail }
  else { s with piece := stepDown s.piece }

/-- The `ArrowDown` handler of the simpler ruleset
(`np.y++; return collides(grid,np) ? p : np`): a plain rejection when the
one-row-lower position collides — no locking happens here. -/
def State.softDrop (s : State) : State :=
  if collides s.grid (stepDown s.piece) then s
  else { s with piece := stepDown s.piece }

end Simple

/-! ### The piece bag -/

/-- All 7 tetromino type indices, the bag's refill content. -/
def fullBag : List Nat := [0, 1, 2, 3, 4, 5, 6]

/-- The `PieceBag` state: the current pool and a count of refills done.
The `Math.random`-driven Fisher-Yates shuffle is modelled by a parameter
`sh` giving each refill's resulting order; the claims quantify over every
`sh` that produces permutations of `fullBag`. -/
structure PieceBag where
  bag : List Nat
  refills : Nat
deriving DecidableEq, Repr

/-- `new PieceBag()`: refills (and shuffles) immediately. -/
def PieceBag.init (sh : Nat → List Nat) : PieceBag := ⟨sh 0, 1⟩

/-- `next()`: refill when the pool is empty, then `pop()` the last element
(the popped type index is what `SHAPES[...]`/`mkPiece` consumes). -/
def PieceBag.next (sh : Nat → List Nat) (b : PieceBag) : Nat × PieceBag :=
  let b2 := if b.bag = [] then PieceBag.mk (sh b.refills) (b.refills + 1) else b
  (b2.bag.getLastD 0, ⟨b2.bag.dropLast, b2.refills⟩)

/-- `n` successive draws from the bag, collecting the drawn type indices. -/
def PieceBag.drawN (sh : Nat → List Nat) : Nat → PieceBag → List Nat × PieceBag
  | 0, b => ([], b)
  | n + 1, b =>
    let r := PieceBag.next sh b
    let rest := PieceBag.drawN sh n r.2
    (r.1 :: rest.1, rest.2)

/-! ### C5: soft-drop semantics -/

/-- A concrete simple-ruleset state: empty board, O piece resting on the
floor (rows 18-19), so the one-row-lower position collides. -/
def sampleSimple : Simple.State :=
  { grid := emptyGrid, piece := { mkPiece 0 with y := 18 }, nextPiece := mkPiece 1,
    score := 0, level := 0, over := false, supply := [mkPiece 2] }

/-- A concrete rich-ruleset state with the same board/piece situation. -/
def richSample : Rich.State :=
  { grid := emptyGrid, piece := some { mkPiece 0 with y := 18 },
    nextPieces := [mkPiece 1, mkPiece 2, mkPiece 3], holdPiece := none,
    canHold := true, score := 0, level := 0, lines := 0, over := false,
    supply := [mkPiece 4, mkPiece 5] }

/-- C5 counterexample: in the simpler ruleset a blocked soft-drop is a
plain rejection, not a lock. In `sampleSimple` the one-row-lower position
collides and the piece's row is 18 (not 0), so a blocked gravity tick
locks (it changes the grid and adds 10 points), yet the `ArrowDown`
handler leaves the whole state unchanged — contradicting the claim that in
every ruleset a blocked soft-drop triggers the lock path. -/
theorem soft_drop_plain_rejection_cex :
    Simple.collides sampleSimple.grid (stepDown sampleSimple.piece) = true ∧
    sampleSimple.piece.y = 18 ∧
    Simple.State.softDrop sampleSimple = sampleSimple ∧
    (Simple.State.tick sampleSimple).grid ≠ sampleSimple.grid ∧
    (Simple.State.tick sampleSimple).score = sampleSimple.score + 10 := by
  refine ⟨by decide, by decide, by decide, by decide, by decide⟩

/-- C5 (amended): in the richer ruleset a soft-drop is exactly a gravity
tick, and when the one-row-lower position collides it takes the lock path
(merge, clear, score, spawn). In the simpler ruleset a blocked soft-drop
is instead a plain rejection leaving the state unchanged; the lock happens
on the gravity tick, and a blocked gravity tick while the piece's row is
still 0 transitions directly to game over without merging. -/
theorem soft_drop_lock_semantics :
    (∀ s : Rich.State, Rich.State.softDrop s = Rich.State.tick s) ∧
    (∀ (s : Rich.State) (p : Piece), s.piece = some p →
      Rich.collides s.grid (stepDown p) = true →
      Rich.State.softDrop s = Rich.State.lockPiece s) ∧
    (∀ s : Simple.State, Simple.collides s.grid (stepDown s.piece) = true →
      Simple.State.softDrop s = s) ∧
    (∀ s : Simple.State, Simple.collides s.grid (stepDown s.piece) = true →
      s.piece.y = 0 → Simple.State.tick s = { s with over := true }) := by
  refine ⟨fun s => rfl, ?_, ?_, ?_⟩
  · intro s p hp hc
    unfold Rich.State.softDrop
    rw [hp]
    simp only [hc, if_true]
  · intro s hc
    unfold Simple.State.softDrop
    rw [if_pos hc]
  · intro s hc h0
    unfold Simple.State.tick
    rw [if_pos hc, if_pos h0]

/-- A fully occupied board, used to force collisions at every position. -/
def fullGridSample : Grid := List.replicate ROWS (List.replicate COLS 1)

/-- Witness for C5 (amended) at concrete states: the rich blocked
soft-drop locks, the simple blocked soft-drop is a no-op, and the simple
row-0 blocked tick sets game over. -/
theorem soft_drop_lock_semantics_witness :
    Rich.State.softDrop richSample = Rich.State.lockPiece richSample ∧
    Simple.State.softDrop sampleSimple = sampleSimple ∧
    Simple.State.tick { sampleSimple with grid := fullGridSample, piece := mkPiece 0 } =
      { sampleSimple with grid := fullGridSample, piece := mkPiece 0, over := true } :=
  ⟨soft_drop_lock_semantics.2.1 richSample { mkPiece 0 with y := 18 } rfl (by decide),
   soft_drop_lock_semantics.2.2.1 sampleSimple (by decide),
   soft_drop_lock_semantics.2.2.2 _ (by decide) (by decide)⟩

/-! ### C6: O-piece descent scenario -/

/-- C6 counterexample: the O piece is two rows tall, so from its centered
spawn `(x=4, y=0)` on the empty 20-row board only 18 one-row downward
moves can succeed: the position after a 19th move (`y = 19`, occupying
rows 19 and 20) already collides, contradicting the claim that each of the
first 19 downward moves succeeds. -/
theorem o_piece_nineteenth_move_cex :
    Simple.collides emptyGrid { mkPiece 0 with y := 19 } = true ∧
    Rich.collides emptyGrid { mkPiece 0 with y := 19 } = true := by
  refine ⟨by decide, by decide⟩

/-- C6 (amended): on the empty 20×10 board the O piece spawns centered at
`(4, 0)` without colliding; each of the first 18 one-row downward moves
succeeds, the 19th downward attempt collides (the piece then rests on the
floor, rows 18-19), and a blocked downward attempt there triggers the lock
path — the gravity tick in the simpler ruleset merges the piece and
promotes the next piece. -/
theorem o_piece_descent_scenario :
    Simple.collides emptyGrid (mkPiece 0) = false ∧
    (mkPiece 0).x = 4 ∧ (mkPiece 0).y = 0 ∧
    (∀ k : Nat, k ≤ 18 →
      Simple.collides emptyGrid { mkPiece 0 with y := (k : Int) } = false) ∧
    Simple.collides emptyGrid { mkPiece 0 with y := 19 } = true ∧
    (Simple.State.tick sampleSimple).grid =
      merge emptyGrid { mkPiece 0 with y := 18 } ∧
    (Simple.State.tick sampleSimple).piece = sampleSimple.nextPiece := by
  have hall : ∀ k : Nat, k < 19 →
      Simple.collides emptyGrid { mkPiece 0 with y := (k : Int) } = false := by decide
  exact ⟨by decide, by decide, by decide,
    fun k hk => hall k (by omega), by decide, by decide, by decide⟩

/-- Witness for C6 (amended): the 8th downward move's position is free. -/
theorem o_piece_descent_scenario_witness :
    Simple.collides emptyGrid { mkPiece 0 with y := ((8 : Nat) : Int) } = false :=
  o_piece_descent_scenario.2.2.2.1 8 (by decide)

/-! ### C9: rejected actions are silent no-ops -/

/-- C9: every rejected action of the richer ruleset returns the session
state unchanged: a move or rotation whose result collides, and a hold
while the hold-used flag is set, commit nothing; holding with an empty
hold slot stashes the re-centered active piece, spawns the preview head,
clears the flag's allowance, and a second hold before any lock is then a
no-op. -/
theorem rejected_actions_are_noops :
    (∀ (s : Rich.State) (p : Piece), s.piece = some p →
      Rich.collides s.grid { p with x := p.x - 1 } = true →
      Rich.State.moveLeft s = s) ∧
    (∀ (s : Rich.State) (p : Piece), s.piece = some p →
      Rich.collides s.grid { p with x := p.x + 1 } = true →
      Rich.State.moveRight s = s) ∧
    (∀ (s : Rich.State) (p : Piece), s.piece = some p →
      Rich.collides s.grid { p with shape := Rich.rotate p.shape } = true →
      Rich.State.rotatePiece s = s) ∧
    (∀ s : Rich.State, s.canHold = false → Rich.State.holdPieceAction s = s) ∧
    (∀ (s : Rich.State) (p : Piece), s.piece = some p →
      s.canHold = true → s.holdPiece = none →
      (Rich.State.holdPieceAction s).holdPiece = some (recenter p) ∧
      (Rich.State.holdPieceAction s).piece = some (s.nextPieces.headD (mkPiece 0)) ∧
      (Rich.State.holdPieceAction s).canHold = false ∧
      Rich.State.holdPieceAction (Rich.State.holdPieceAction s) =
        Rich.State.holdPieceAction s) := by
  refine ⟨?_, ?_, ?_, ?_, ?_⟩
  · intro s p hp hc
    unfold Rich.State.moveLeft
    rw [hp]
    simp only [hc, if_true]
  · intro s p hp hc
    unfold Rich.State.moveRight
    rw [hp]
    simp only [hc, if_true]
  · intro s p hp hc
    unfold Rich.State.rotatePiece
    rw [hp]
    simp only [hc, if_true]
  · intro s hhold
    unfold Rich.State.holdPieceAction
    cases hp : s.piece with
    | none => rfl
    | some p => rw [hhold]; rfl
  · intro s p hp hcan hnone
    have hstep : Rich.State.holdPieceAction s =
        { s with
          holdPiece := some (recenter p)
          piece := some (s.nextPieces.headD (mkPiece 0))
          nextPieces := s.nextPieces.tail ++ [s.supply.headD (mkPiece 0)]
          supply := s.supply.tail
          canHold := false } := by
      unfold Rich.State.holdPieceAction
      rw [hp, hcan, hnone]
      rfl
    refine ⟨by rw [hstep], by rw [hstep], by rw [hstep], ?_⟩
    rw [hstep]
    unfold Rich.State.holdPieceAction
    rfl

/-- Witness for C9 at concrete states: a second hold after holding into an
empty slot changes nothing, and a blocked rotation is a no-op (I piece
rotated in place at the left wall of a full board). -/
theorem rejected_actions_are_noops_witness :
    Rich.State.holdPieceAction (Rich.State.holdPieceAction richSample) =
      Rich.State.holdPieceAction richSample ∧
    Rich.State.rotatePiece
        { richSample with
          grid := fullGridSample
          piece := some (mkPiece 1) } =
      { richSample with
        grid := fullGridSample
        piece := some (mkPiece 1) } :=
  ⟨(rejected_actions_are_noops.2.2.2.2 richSample { mkPiece 0 with y := 18 }
      rfl rfl rfl).2.2.2,
   rejected_actions_are_noops.2.2.1 _ (mkPiece 1) rfl (by decide)⟩

/-! ### C8: the bag policy -/

theorem drawN_full_pool (sh : Nat → List Nat) :
    ∀ (bag : List Nat) (r : Nat),
      PieceBag.drawN sh bag.length ⟨bag, r⟩ = (bag.reverse, ⟨[], r⟩) := by
  intro bag
  induction bag using List.reverseRecOn with
  | nil => intro r; rfl
  | append_singleton xs x ih =>
    intro r
    rw [List.length_append, List.length_cons, List.length_nil]
    show PieceBag.drawN sh (xs.length + 1) ⟨xs ++ [x], r⟩ = _
    rw [PieceBag.drawN]
    have hne : ¬(xs ++ [x] = []) := by simp
    simp only [PieceBag.next, hne, if_neg, if_false]
    rw [List.getLastD_concat, List.dropLast_concat]
    rw [ih r]
    simp

theorem bag_next_nodup (sh : Nat → List Nat)
    (hsh : ∀ r, List.Perm (sh r) fullBag) (b : PieceBag)
    (hb : b.bag.Nodup) : ((PieceBag.next sh b).2).bag.Nodup := by
  unfold PieceBag.next
  by_cases he : b.bag = []
  · simp only [he, if_true, if_pos]
    exact List.Nodup.sublist (List.dropLast_sublist _)
      ((hsh b.refills).nodup_iff.mpr (by decide))
  · simp only [he, if_false, if_neg]
    exact List.Nodup.sublist (List.dropLast_sublist _) hb

/-- C8: modelling each refill's Fisher-Yates shuffle as an arbitrary
permutation of the full 7-type bag, 7 consecutive draws starting from a
freshly refilled pool yield each of the 7 type indices exactly once (a
permutation of the full bag); a duplicate-free pool stays duplicate-free
across `next`; and a refill while the pool is empty restores all 7 types
before the draw (the drawn index together with the remaining pool is again
a permutation of the full bag). -/
theorem bag_seven_draws_complete (sh : Nat → List Nat)
    (hsh : ∀ r, List.Perm (sh r) fullBag) :
    (∀ (bag : List Nat) (r : Nat), List.Perm bag fullBag →
      List.Perm ((PieceBag.drawN sh 7 ⟨bag, r⟩).1) fullBag) ∧
    (∀ b : PieceBag, b.bag.Nodup → ((PieceBag.next sh b).2).bag.Nodup) ∧
    (∀ b : PieceBag, b.bag = [] →
      List.Perm ((PieceBag.next sh b).1 :: ((PieceBag.next sh b).2).bag) fullBag) ∧
    List.Perm ((PieceBag.init sh).bag) fullBag := by
  refine ⟨?_, fun b hb => bag_next_nodup sh hsh b hb, ?_, hsh 0⟩
  · intro bag r hp
    have hlen : bag.length = 7 := by
      rw [hp.length_eq]
      rfl
    rw [← hlen, drawN_full_pool sh bag r]
    exact (bag.reverse_perm).trans hp
  · intro b he
    unfold PieceBag.next
    simp only [he, if_true, if_pos]
    have hne : sh b.refills ≠ [] := by
      intro hnil
      have := (hsh b.refills).length_eq
      rw [hnil] at this
      exact absurd this (by decide)
    obtain ⟨ys, y, heq⟩ := (List.eq_nil_or_concat (sh b.refills)).resolve_left hne
    rw [heq, List.concat_eq_append, List.getLastD_concat, List.dropLast_concat]
    have hys : List.Perm (ys ++ [y]) fullBag := by
      rw [← List.concat_eq_append, ← heq]
      exact hsh b.refills
    exact ((List.perm_append_singleton y ys).symm).trans hys

/-- Witness for C8 with the identity shuffle: 7 draws from a fresh bag
yield a permutation of the 7 types. -/
theorem bag_seven_draws_complete_witness :
    List.Perm ((PieceBag.drawN (fun _ => fullBag) 7 ⟨fullBag, 1⟩).1) fullBag :=
  (bag_seven_draws_complete (fun _ => fullBag) (fun _ => List.Perm.refl _)).1
    fullBag 1 (List.Perm.refl _)

/-! ### C10: termination and stop position of the descent loops -/

theorem piece_y_congr (p : Piece) (a b : Int) (h : a = b) :
    ({ p with y := a } : Piece) = { p with y := b } := by rw [h]

theorem stopsAt_stepDown (g : Grid) (p : Piece) (k : Nat) :
    stopsAt g (stepDown p) k = stopsAt g p (k + 1) := by
  unfold stopsAt stepDown
  rw [piece_y_congr p (p.y + 1 + (k : Int) + 1) (p.y + ((k + 1 : Nat) : Int) + 1)
    (by push_cast; ring)]

theorem descend_reaches (g : Grid) (k0 : Nat) :
    ∀ (p : Piece) (fuel : Nat), k0 ≤ fuel →
      stopsAt g p k0 = true → (∀ j, j < k0 → stopsAt g p j = false) →
      descend g p fuel = { p with y := p.y + (k0 : Int) } := by
  induction k0 with
  | zero =>
    intro p fuel _ hs _
    have hcol : Rich.collides g (stepDown p) = true := by
      unfold stopsAt at hs
      rw [show ({ p with y := p.y + ((0 : Nat) : Int) + 1 } : Piece) = stepDown p by
        unfold stepDown
        exact piece_y_congr p _ _ (by push_cast; ring)] at hs
      exact hs
    have hself : ({ p with y := p.y + ((0 : Nat) : Int) } : Piece) = p := by
      rw [piece_y_congr p _ p.y (by push_cast; ring)]
    cases fuel with
    | zero => rw [descend, hself]
    | succ f => rw [descend, if_pos hcol, hself]
  | succ n ih =>
    intro p fuel hle hs hmin
    obtain ⟨f, rfl⟩ : ∃ f, fuel = f + 1 := ⟨fuel - 1, by omega⟩
    have h0 : stopsAt g p 0 = false := hmin 0 (by omega)
    have hcol : Rich.collides g (stepDown p) = false := by
      unfold stopsAt at h0
      rw [show ({ p with y := p.y + ((0 : Nat) : Int) + 1 } : Piece) = stepDown p by
        unfold stepDown
        exact piece_y_congr p _ _ (by push_cast; ring)] at h0
      exact h0
    rw [descend, if_neg (by rw [hcol]; exact Bool.false_ne_true)]
    rw [ih (stepDown p) f (by omega)
      (by rw [stopsAt_stepDown]; exact hs)
      (fun j hj => by rw [stopsAt_stepDown]; exact hmin (j + 1) (by omega))]
    unfold stepDown
    exact piece_y_congr p _ _ (by push_cast; ring)

theorem stopsAt_big (g : Grid) (p : Piece) (dy dx : Nat)
    (hocc : occupiedCell p.shape dy dx) :
    stopsAt g p (((ROWS : Int) - p.y).toNat + p.shape.length) = true := by
  unfold stopsAt
  refine (richCollides_iff g _).mpr ⟨dy, dx, hocc, Or.inr (Or.inr (Or.inl ?_))⟩
  show p.y + (((((ROWS : Int) - p.y).toNat + p.shape.length : Nat)) : Int) + 1 +
    (dy : Int) ≥ (ROWS : Int)
  have h1 : ((ROWS : Int) - p.y).toNat ≥ (ROWS : Int) - p.y := Int.self_le_toNat _
  push_cast
  omega

theorem exists_stopsAt (g : Grid) (p : Piece)
    (hocc : ∃ dy dx, occupiedCell p.shape dy dx) :
    ∃ k, stopsAt g p k = true := by
  obtain ⟨dy, dx, hocc⟩ := hocc
  exact ⟨_, stopsAt_big g p dy dx hocc⟩

theorem getGhostPiece_eq_least (g : Grid) (p : Piece)
    (hex : ∃ k, stopsAt g p k = true) :
    getGhostPiece p g = { p with y := p.y + ((Nat.find hex : Nat) : Int) } := by
  refine descend_reaches g (Nat.find hex) p (ghostFuel p) ?_ (Nat.find_spec hex)
    (fun j hj => by
      have := Nat.find_min hex hj
      exact Bool.not_eq_true _ ▸ eq_false_of_ne_true this)
  have hex2 := hex
  obtain ⟨k, hk⟩ := hex2
  obtain ⟨dy, dx, hocc⟩ : ∃ dy dx, occupiedCell p.shape dy dx := by
    obtain ⟨dy, dx, hocc, _⟩ := (richCollides_iff g _).mp hk
    exact ⟨dy, dx, hocc⟩
  have hle : Nat.find hex ≤ ((ROWS : Int) - p.y).toNat + p.shape.length :=
    Nat.find_min' hex (stopsAt_big g p dy dx hocc)
  unfold ghostFuel
  omega

theorem getGhostPiece_spec (g : Grid) (p : Piece)
    (hocc : ∃ dy dx, occupiedCell p.shape dy dx)
    (hnc : Rich.collides g p = false) :
    Rich.collides g (getGhostPiece p g) = false ∧
    Rich.collides g (stepDown (getGhostPiece p g)) = true ∧
    (getGhostPiece p g).x = p.x ∧ (getGhostPiece p g).shape = p.shape := by
  have hex := exists_stopsAt g p hocc
  have hG := getGhostPiece_eq_least g p hex
  refine ⟨?_, ?_, by rw [hG], by rw [hG]⟩
  · rcases Nat.eq_zero_or_pos (Nat.find hex) with h0 | hpos
    · rw [hG, h0, piece_y_congr p (p.y + ((0 : Nat) : Int)) p.y (by push_cast; ring)]
      exact hnc
    · obtain ⟨m, hm⟩ : ∃ m, Nat.find hex = m + 1 := ⟨Nat.find hex - 1, by omega⟩
      have hmlt := Nat.find_min hex (m := m) (by omega)
      have hmfalse : stopsAt g p m = false := by
        cases hsm : stopsAt g p m with
        | false => rfl
        | true => exact absurd hsm hmlt
      rw [hG, hm,
        piece_y_congr p (p.y + ((m + 1 : Nat) : Int)) (p.y + (m : Int) + 1)
          (by push_cast; ring)]
      unfold stopsAt at hmfalse
      exact hmfalse
  · rw [hG]
    have hs := Nat.find_spec hex
    unfold stopsAt at hs
    exact hs

theorem stopsAt_empty_shape (g : Grid) (p : Piece)
    (hempty : ∀ dy dx, ¬ occupiedCell p.shape dy dx) (k : Nat) :
    stopsAt g p k = false := by
  cases h : stopsAt g p k with
  | false => rfl
  | true =>
    exfalso
    unfold stopsAt at h
    obtain ⟨dy, dx, hocc, _⟩ := (richCollides_iff g _).mp h
    exact hempty dy dx hocc

/-- C10 counterexample: the claim omits the precondition that the starting
position itself be collision-free. The O piece at its spawn on a fully
occupied board has an occupied shape cell, yet the descent loop exits
immediately (the one-row-lower copy already collides) and its stop
position still collides — contradicting "they stop at a y where the
piece's position does not collide". -/
theorem descent_stop_collides_cex :
    occupiedCell (mkPiece 0).shape 0 0 ∧
    getGhostPiece (mkPiece 0) fullGridSample = mkPiece 0 ∧
    Rich.collides fullGridSample (mkPiece 0) = true := by
  refine ⟨by decide, by decide, by decide⟩

/-- C10 (amended): for every board and every piece with at least one
occupied shape cell, the descent loops' exit condition is eventually
satisfied (the loops terminate); when additionally the starting position
does not collide, the loop stops at a position that does not collide while
the position one row lower does (moving only in `y`); the hard-drop loop
computes the same final piece as the ghost projection; and for a piece
with no occupied cell the exit condition never holds (the loop never
exits, so a non-empty shape is a necessary precondition for totality). -/
theorem descent_loops_terminate :
    (∀ (g : Grid) (p : Piece), (∃ dy dx, occupiedCell p.shape dy dx) →
      ∃ k, stopsAt g p k = true) ∧
    (∀ (g : Grid) (p : Piece), (∃ dy dx, occupiedCell p.shape dy dx) →
      Rich.collides g p = false →
      Rich.collides g (getGhostPiece p g) = false ∧
      Rich.collides g (stepDown (getGhostPiece p g)) = true ∧
      (getGhostPiece p g).x = p.x ∧ (getGhostPiece p g).shape = p.shape) ∧
    (∀ (s : Rich.State) (p : Piece), s.piece = some p →
      (Rich.State.hardDrop s).piece = some (getGhostPiece p s.grid)) ∧
    (∀ (g : Grid) (p : Piece), (∀ dy dx, ¬ occupiedCell p.shape dy dx) →
      ∀ k, stopsAt g p k = false) := by
  refine ⟨exists_stopsAt, getGhostPiece_spec, ?_, stopsAt_empty_shape⟩
  intro s p hp
  unfold Rich.State.hardDrop
  rw [hp]

/-- Witness for C10 (amended): the O piece dropped on the empty board
comes to rest collision-free with the next row blocked. -/
theorem descent_loops_terminate_witness :
    Rich.collides emptyGrid (getGhostPiece (mkPiece 0) emptyGrid) = false ∧
    Rich.collides emptyGrid (stepDown (getGhostPiece (mkPiece 0) emptyGrid)) = true :=
  ⟨(descent_loops_terminate.2.1 emptyGrid (mkPiece 0) ⟨0, 0, by decide⟩ (by decide)).1,
   (descent_loops_terminate.2.1 emptyGrid (mkPiece 0) ⟨0, 0, by decide⟩
      (by decide)).2.1⟩
